import Mathlib

/-!
# My-Shell: the command-execution engine of `shell.c`

A shallow embedding of `handler`, `bg_wait` and the pieces of `handler`
(tokenizer, background detection, redirection, pipeline loop), followed by
the properties proved about them.

Conventions of the embedding.

* A C string is the list of its characters before the terminating NUL.
* The argument array `char * args[64]` is the list of the slots the tokenizer
  wrote: one `some tok` per token, then the `NULL` terminator (`none`).
  `next` is an index into it (an `Int`, because the code computes `next - 1`
  and `next - 2` without looking at the token count).  A line of 64 tokens or
  more overruns the array; the lines that `main` and `prompt` pass (from
  `char str[80]`) never do, see `tokenize_fits`.
* System calls are events of a trace; what the operating system answers is
  read from a `World`.
* `status` is an `int`, `fg_pid` a `pid_t` (both `Int` here), `bg_count` a
  `size_t`: a natural number below `2 ^ 64`, updated modulo `2 ^ 64`.
-/

namespace MyShell

/-- A C string: its characters before the terminating NUL. -/
abbrev CStr := List Char

/-- The argument array: `none` is a `NULL` slot. -/
abbrev Args := List (Option CStr)

/-- Result code `R_OKOK` of the enum on line 10. -/
def R_OKOK : Int := 0

/-- Result code `R_EXIT` of the enum on line 10. -/
def R_EXIT : Int := -1

/-- Result code `R_ERROR` of the enum on line 10. -/
def R_ERROR : Int := -2

/-- Number of slots of `char * args[64]`. -/
def ARGS_CAP : Nat := 64

/-- Number of values of a `size_t` (LP64). -/
def SIZE_MOD : Nat := 2 ^ 64

/-- The globals of lines 11-13, and whether `main` installed `bg_wait` as the
`SIGCHLD` handler (it does so only on an interactive terminal). -/
structure Shell where
  status : Int
  fg_pid : Int
  bg_count : Nat
  sigchld : Bool
  deriving DecidableEq, Repr

/-- Flags of `open` used by the redirections. -/
inductive OFlag
  | O_RDONLY
  | O_WRONLY
  | O_CREAT
  | O_TRUNC
  | O_APPEND
  deriving DecidableEq, Repr

/-- The two standard descriptors a redirection is duplicated onto. -/
inductive Fd
  | STDIN_FILENO
  | STDOUT_FILENO
  deriving DecidableEq, Repr

/-- System calls and writes to the job-tracker globals, in program order. -/
inductive Event
  | fork (ret : Int)
  | setpgid (pid pgid : Int)
  | set_fg_pid (v : Int)
  | waitpid (pid : Int)
  | set_status (s : Int)
  | raise_sigchld
  | waitpid_nohang (reaped : Bool)
  | print (s : String)
  | eprint_error
  | chdir (path : Option CStr)
  | open_file (path : Option CStr) (flags : List OFlag)
  | dup2_file (target : Fd)
  | close_file
  | pipe
  | fork_stage (argv : List CStr)
  | dup2_pipe_stdin
  | execvp (argv : List CStr)
  deriving DecidableEq, Repr

/-- Undefined behaviour the code can run into. -/
inductive Fault
  | null_deref
  | out_of_bounds (i : Int)
  deriving DecidableEq, Repr

/-- How a call of `handler` ends in the process that runs it.
`ret`: it returns a result code, with the globals and the trace so far.
`exec`: the process reached the final `execvp` (the last event): its image is
replaced or, when `execvp` fails, it reports the error and exits with 1.
`exit`: the process called `exit` after a failed `open`.
`fault`: undefined behaviour was reached.
`stuck`: a loop of the model ran out of fuel (shown not to happen). -/
inductive Outcome
  | ret (code : Int) (st : Shell) (out : List Event)
  | exec (out : List Event)
  | exit (code : Int) (out : List Event)
  | fault (f : Fault) (out : List Event)
  | stuck (out : List Event)
  deriving DecidableEq, Repr

/-- Answers of the operating system.
`fork_result`: what the top-level `fork()` returns in the process modelled.
`wait_status`: the raw status the blocking `waitpid` stores.
`reap k`: whether the `k`-th `waitpid(-1, NULL, WNOHANG)` of a run of
`bg_wait` returns a positive id.
`open_ok`: whether `open` succeeds on a path.
`chdir_ok`: whether `chdir` returns 0 on a path.
`home`: the value of `getenv("HOME")`. -/
structure World where
  fork_result : Int
  wait_status : Int
  reap : Nat → Bool
  open_ok : CStr → Bool
  chdir_ok : CStr → Bool
  home : Option CStr

/-! ## Tokenizer (lines 97-107) -/

/-- Membership in the delimiter set of `strtok`. -/
def is_delim (delim : CStr) (c : Char) : Bool := delim.contains c

/-- One call of `strtok` on the saved position: skip the leading delimiters;
at the end of the string there is no token; otherwise the token runs up to
the next delimiter, which is overwritten with NUL, and the saved position
moves past it. -/
def strtok (delim : CStr) (save : CStr) : Option (CStr × CStr) :=
  match save.dropWhile (is_delim delim) with
  | [] => none
  | c :: rest =>
    some ((c :: rest).takeWhile (fun x => !is_delim delim x),
          ((c :: rest).dropWhile (fun x => !is_delim delim x)).tail)

/-- The loop of lines 101-106: `strtok(tstr, " ")`, then `strtok(NULL, " ")`
until it returns `NULL`. -/
def tokenize_loop : Nat → CStr → List CStr
  | 0, _ => []
  | fuel + 1, save =>
    match strtok [' '] save with
    | none => []
    | some (arg, save') => arg :: tokenize_loop fuel save'

/-- The tokens of a line. Every call of `strtok` that returns a token consumes
at least one character, so `length + 1` iterations reach the `NULL`. -/
def tokenize (str : CStr) : List CStr := tokenize_loop (str.length + 1) str

/-! ## Reading the argument array -/

/-- Read of `args[i]`: defined only on the slots the tokenizer wrote. -/
def slot (args : Args) (i : Int) : Except Fault (Option CStr) :=
  if i < 0 then .error (.out_of_bounds i)
  else
    match args[i.toNat]? with
    | some p => .ok p
    | none => .error (.out_of_bounds i)

/-- The vector `args + i` as `execvp` reads it: the strings up to the first
`NULL`. -/
def argv (args : Args) (i : Nat) : List CStr :=
  ((args.drop i).takeWhile Option.isSome).filterMap id

/-! ## Job tracker: `bg_wait` (lines 253-269) -/

/-- Conversion of a `size_t` to `int` (`int i = bg_count`): reduction modulo
`2 ^ 32` into the signed range. -/
def to_int (n : Nat) : Int :=
  if n % 2 ^ 32 < 2 ^ 31 then ((n % 2 ^ 32 : Nat) : Int)
  else ((n % 2 ^ 32 : Nat) : Int) - 2 ^ 32

/-- `bg_count--` on a `size_t`. -/
def size_dec (c : Nat) : Nat := (c + (SIZE_MOD - 1)) % SIZE_MOD

/-- `bg_count++` on a `size_t`. -/
def size_inc (c : Nat) : Nat := (c + 1) % SIZE_MOD

/-- The `for` loop of `bg_wait` with `i` iterations left; `k` counts the
attempts already made. -/
def bg_wait_loop (w : World) : Nat → Nat → Shell → List Event → Shell × List Event
  | 0, _, st, out => (st, out)
  | i + 1, k, st, out =>
    bg_wait_loop w i (k + 1)
      (if w.reap k then { st with bg_count := size_dec st.bg_count } else st)
      (out ++ [Event.waitpid_nohang (w.reap k)])

/-- The `SIGCHLD` handler: nothing while a foreground process is recorded;
otherwise `i = bg_count` non-blocking waits, one decrement per reap. -/
def bg_wait (w : World) (st : Shell) : Shell × List Event :=
  if st.fg_pid = 0 then bg_wait_loop w (to_int st.bg_count).toNat 0 st []
  else (st, [])

/-- Effect of `raise(SIGCHLD)`: runs `bg_wait` when it is installed, ignored
otherwise (default disposition). -/
def raise_sigchld (w : World) (st : Shell) : Shell × List Event :=
  if st.sigchld then bg_wait w st else (st, [])

/-! ## The `status` built-in (line 93) -/

/-- The macro `WEXITSTATUS` of `<sys/wait.h>` (glibc): `(s & 0xff00) >> 8`,
on the two's complement bits of the `int`. -/
def WEXITSTATUS (s : Int) : Int :=
  (((s % 2 ^ 32).toNat &&& 0xff00) >>> 8 : Nat)

/-- Output of `printf("%d\n", v)`. -/
def printf_d (v : Int) : String := toString v ++ "\n"

/-! ## Redirection (lines 162-203) -/

/-- The body shared by the three branches: `open` the path with the flags of
the branch; on failure report and `exit(1)`; otherwise `dup2` onto the
target descriptor and `close`. -/
def open_dup (w : World) (path : Option CStr) (flags : List OFlag) (target : Fd)
    (out : List Event) : Except Outcome (List Event) :=
  match path with
  | some p =>
    if w.open_ok p then
      .ok (out ++ [Event.open_file (some p) flags, Event.dup2_file target, Event.close_file])
    else .error (.exit 1 (out ++ [Event.open_file (some p) flags, Event.eprint_error]))
  | none => .error (.exit 1 (out ++ [Event.open_file none flags, Event.eprint_error]))

/-- Lines 163-203: compare `*(next - 2)` with `<`, `>` and `>>`; in the branch
that matches, open `*(next - 1)` and store `NULL` at `next - 2`. -/
def redirection (w : World) (args : Args) (next : Int) (out : List Event) :
    Except Outcome (Args × List Event) :=
  match slot args (next - 2) with
  | .error f => .error (.fault f out)
  | .ok none => .error (.fault .null_deref out)
  | .ok (some op) =>
    if op = "<".toList then
      match slot args (next - 1) with
      | .error f => .error (.fault f out)
      | .ok path =>
        match open_dup w path [.O_RDONLY] .STDIN_FILENO out with
        | .error o => .error o
        | .ok out' => .ok (args.set (next - 2).toNat none, out')
    else if op = ">".toList then
      match slot args (next - 1) with
      | .error f => .error (.fault f out)
      | .ok path =>
        match open_dup w path [.O_WRONLY, .O_CREAT, .O_TRUNC] .STDOUT_FILENO out with
        | .error o => .error o
        | .ok out' => .ok (args.set (next - 2).toNat none, out')
    else if op = ">>".toList then
      match slot args (next - 1) with
      | .error f => .error (.fault f out)
      | .ok path =>
        match open_dup w path [.O_WRONLY, .O_CREAT, .O_APPEND] .STDOUT_FILENO out with
        | .error o => .error o
        | .ok out' => .ok (args.set (next - 2).toNat none, out')
    else .ok (args, out)

/-! ## Pipeline (lines 205-249) -/

/-- The call `execvp(args[i], args + i)` as the pipeline makes it: the file
name `args[i]` is read first; when it is `NULL` (an empty stage) the call is
made on a null pointer, undefined behaviour; otherwise the vector is the
strings from slot `i` up to the next `NULL`. -/
def execvp_argv (args : Args) (i : Nat) : Except Fault (List CStr) :=
  match args[i]? with
  | some (some _) => .ok (argv args i)
  | some none => .error .null_deref
  | none => .error (.out_of_bounds i)

/-- The `while(args[t] != NULL)` loop and the final `execvp`. At a `|`: the
slot becomes `NULL`, a pipe is created, a process is forked that runs
`execvp(args[tpipe], args + tpipe)` with its output on the pipe, the
orchestrating process takes the read end as its input, and `tpipe = t + 1`.
Undefined behaviour of the `execvp` call of a stage, in the forked process or
in the orchestrating one, ends the run as a fault. -/
def pipeline_loop : Nat → Args → Nat → Nat → List Event → Outcome
  | 0, _, _, _, out => .stuck out
  | fuel + 1, args, t, tpipe, out =>
    match args[t]? with
    | none => .fault (.out_of_bounds t) out
    | some none =>
      match execvp_argv args tpipe with
      | .error f => .fault f out
      | .ok v => .exec (out ++ [Event.execvp v])
    | some (some a) =>
      if a = "|".toList then
        match execvp_argv (args.set t none) tpipe with
        | .error f => .fault f (out ++ [Event.pipe, Event.fork_stage []])
        | .ok v =>
          pipeline_loop fuel (args.set t none) (t + 1) (t + 1)
            (out ++ [Event.pipe, Event.fork_stage v, Event.dup2_pipe_stdin])
      else pipeline_loop fuel args (t + 1) tpipe out

/-- Lines 205-249 from `t = 0`, `tpipe = 0`; the loop advances `t` by one per
iteration, so `length + 1` iterations reach a `NULL` or the end. -/
def pipeline (args : Args) (out : List Event) : Outcome :=
  pipeline_loop (args.length + 1) args 0 0 out

/-- The `else` branch of line 160: the process in which `fork()` did not
return a positive id. -/
def exec_branch (w : World) (args : Args) (next : Int) (out : List Event) : Outcome :=
  match redirection w args next out with
  | .error o => o
  | .ok (args', out') => pipeline args' out'

/-! ## `handler` (lines 78-251) -/

/-- Lines 110-121: the `cd` built-in. -/
def cd_builtin (w : World) (st : Shell) (args : Args) : Outcome :=
  match slot args 1 with
  | .error f => .fault f []
  | .ok (some path) =>
    .ret (if w.chdir_ok path then R_OKOK else R_ERROR) st [Event.chdir (some path)]
  | .ok none => .ret R_OKOK st [Event.chdir w.home]

/-- Lines 131-159 and the dispatch to the `else` branch: `fork`, `setpgid`,
then the parent's bookkeeping or the child's redirection and pipeline. -/
def launch (w : World) (st : Shell) (args : Args) (next : Int) (background : Bool) : Outcome :=
  let pid := w.fork_result
  let out := [Event.fork pid, Event.setpgid pid pid]
  if pid > 0 then
    if background then
      .ret R_OKOK { st with bg_count := size_inc st.bg_count } (out ++ [Event.print (printf_d pid)])
    else
      let st1 := { st with fg_pid := pid }
      let st2 := { st1 with status := w.wait_status }
      let st3 := { st2 with fg_pid := 0 }
      let r := raise_sigchld w st3
      .ret R_OKOK r.1
        (out ++ [Event.set_fg_pid pid, Event.waitpid pid, Event.set_status w.wait_status,
                 Event.set_fg_pid 0, Event.raise_sigchld] ++ r.2)
  else exec_branch w args next out

/-- The line handler. The tokenizer stores one pointer per token and then the
`NULL` terminator: with 64 tokens or more it writes past `args[63]`. -/
def handler (w : World) (st : Shell) (str : CStr) : Outcome :=
  if str.head? = none ∨ str.head? = some '\n' ∨ str.head? = some '#' then .ret R_OKOK st []
  else if str = "exit".toList then .ret R_EXIT st []
  else if str = "status".toList then
    .ret R_OKOK st [Event.print (printf_d (WEXITSTATUS st.status))]
  else
    let toks := tokenize str
    if ARGS_CAP ≤ toks.length then .fault (.out_of_bounds ARGS_CAP) []
    else
      let args : Args := toks.map some ++ [none]
      let next : Int := toks.length
      match slot args 0 with
      | .error f => .fault f []
      | .ok none => .fault .null_deref []
      | .ok (some a0) =>
        if a0 = "cd".toList then cd_builtin w st args
        else
          match slot args (next - 1) with
          | .error f => .fault f []
          | .ok none => .fault .null_deref []
          | .ok (some last) =>
            if last = "&".toList then
              launch w st (args.set (next - 1).toNat none) (next - 1) true
            else launch w st args next false

/-- The globals as `main` initialises them (lines 23-25). -/
def init (interactive : Bool) : Shell :=
  { status := 0, fg_pid := 0, bg_count := 0, sigchld := interactive }

/-- A world in which the top-level `fork` returns `pid`, the foreground wait
stores `s`, every non-blocking wait reaps, and every `open` and `chdir`
succeeds. -/
def world (pid s : Int) : World :=
  { fork_result := pid, wait_status := s, reap := fun _ => true,
    open_ok := fun _ => true, chdir_ok := fun _ => true, home := some "/root".toList }

/-! ## Reference definitions for the statements -/

/-- The maximal runs of non-space characters of a line: the pieces between
spaces, the empty ones left out. -/
def space_runs (str : CStr) : List CStr := (str.splitOn ' ').filter (fun t => !t.isEmpty)

/-- A world in which the second non-blocking wait of a run finds no child to
reap and every other one reaps. -/
def sample_world : World := { world 7 0 with reap := fun k => k != 1 }

/-- An interactive shell with no foreground process and `n` background
children counted. -/
def sample_state (n : Nat) : Shell := { init true with bg_count := n }

/-- The three kinds of redirection of the data model. -/
inductive RedirKind
  | Input
  | OutputTruncate
  | OutputAppend
  deriving DecidableEq, Repr

/-- The kind an operator token stands for: `<` is Input, `>` is
OutputTruncate, `>>` is OutputAppend; any other token is no operator. -/
def RedirKind.of_token (op : CStr) : Option RedirKind :=
  if op = "<".toList then some .Input
  else if op = ">".toList then some .OutputTruncate
  else if op = ">>".toList then some .OutputAppend
  else none

/-- How the target is opened: read-only for Input, create and truncate for
OutputTruncate, create and append for OutputAppend. -/
def RedirKind.flags : RedirKind → List OFlag
  | .Input => [.O_RDONLY]
  | .OutputTruncate => [.O_WRONLY, .O_CREAT, .O_TRUNC]
  | .OutputAppend => [.O_WRONLY, .O_CREAT, .O_APPEND]

/-- The standard stream the target is bound to. -/
def RedirKind.target : RedirKind → Fd
  | .Input => .STDIN_FILENO
  | .OutputTruncate => .STDOUT_FILENO
  | .OutputAppend => .STDOUT_FILENO

theorem is_delim_space (c : Char) : is_delim [' '] c = (c == ' ') := by
  cases h : (c == ' ') <;> simp [is_delim, List.contains, List.elem, h]

theorem space_runs_nil : space_runs [] = [] := by
  simp [space_runs]

theorem space_runs_cons_space (s : CStr) : space_runs (' ' :: s) = space_runs s := by
  simp [space_runs, List.splitOn]

theorem space_runs_dropWhile (s : CStr) :
    space_runs (s.dropWhile (fun c => c == ' ')) = space_runs s := by
  induction s with
  | nil => rfl
  | cons c s ih =>
    by_cases h : c = ' '
    · subst h
      simp only [List.dropWhile_cons, beq_self_eq_true, if_true, ih, space_runs_cons_space]
    · simp [List.dropWhile_cons, h]

theorem space_runs_cons_other (c : Char) (s : CStr) (h : c ≠ ' ') :
    space_runs (c :: s) =
      (c :: s.takeWhile (fun x => !(x == ' '))) ::
        space_runs ((s.dropWhile (fun x => !(x == ' '))).tail) := by
  have hsplit : s = s.takeWhile (fun x => !(x == ' ')) ++ s.dropWhile (fun x => !(x == ' ')) :=
    (List.takeWhile_append_dropWhile _ s).symm
  have htw : ∀ x ∈ c :: s.takeWhile (fun x => !(x == ' ')), ¬ ((fun y => y == ' ') x = true) := by
    intro x hx
    rcases List.mem_cons.1 hx with rfl | hx
    · simpa using h
    · have := List.mem_takeWhile_imp hx
      simpa using this
  cases hd : s.dropWhile (fun x => !(x == ' ')) with
  | nil =>
    rw [hd, List.append_nil] at hsplit
    have h1 : (c :: s).splitOnP (fun y => y == ' ') = [c :: s] := by
      apply List.splitOnP_eq_single
      rw [hsplit]; exact htw
    simp only [space_runs, List.splitOn, h1, List.tail_nil]
    rw [← hsplit]
    simp
  | cons d r =>
    have hdsp : d = ' ' := by
      have := List.head_dropWhile_not (fun x => !(x == ' ')) s (by simp [hd])
      simpa [hd] using this
    subst hdsp
    have h1 : (c :: s).splitOnP (fun y => y == ' ') =
        (c :: s.takeWhile (fun x => !(x == ' '))) :: r.splitOnP (fun y => y == ' ') := by
      conv_lhs => rw [hsplit, hd]
      exact List.splitOnP_first (fun y => y == ' ') _ htw ' ' (by simp) r
    simp [space_runs, List.splitOn, h1]

theorem tokenize_loop_eq (fuel : Nat) :
    ∀ s : CStr, s.length < fuel → tokenize_loop fuel s = space_runs s := by
  induction fuel with
  | zero => intro s h; exact absurd h (Nat.not_lt_zero _)
  | succ fuel ih =>
    intro s hs
    have hfun : is_delim [' '] = fun c => c == ' ' := funext is_delim_space
    simp only [tokenize_loop, strtok, hfun]
    rw [← space_runs_dropWhile s]
    have hlen : (s.dropWhile (fun c => c == ' ')).length ≤ s.length :=
      (List.dropWhile_sublist _).length_le
    cases hd : s.dropWhile (fun c => c == ' ') with
    | nil => simp [space_runs_nil]
    | cons c rest =>
      have hc : c ≠ ' ' := by
        have := List.head_dropWhile_not (fun x => x == ' ') s (by simp [hd])
        simpa [hd] using this
      rw [hd] at hlen
      have hc' : (c == ' ') = false := by simpa using hc
      simp only [List.takeWhile_cons, List.dropWhile_cons, hc', Bool.not_false, if_true]
      rw [space_runs_cons_other c rest hc]
      congr 1
      apply ih
      have h2 : (rest.dropWhile (fun x => !(x == ' '))).tail.length ≤ rest.length := by
        rw [List.length_tail]
        exact le_trans (Nat.sub_le _ _) (List.dropWhile_sublist _).length_le
      simp only [List.length_cons] at hlen
      omega

theorem tokenize_eq_space_runs (s : CStr) : tokenize s = space_runs s :=
  tokenize_loop_eq _ s (Nat.lt_succ_self _)

theorem splitOnP_mem_not {α : Type} (p : α → Bool) (s : List α) :
    ∀ t ∈ s.splitOnP p, ∀ x ∈ t, p x = false := by
  induction s with
  | nil => intro t ht x hx; simp at ht; subst ht; simp at hx
  | cons c s ih =>
    intro t ht x hx
    rw [List.splitOnP_cons] at ht
    by_cases hc : p c = true
    · rw [if_pos hc] at ht
      rcases List.mem_cons.1 ht with rfl | ht
      · simp at hx
      · exact ih t ht x hx
    · rw [if_neg hc] at ht
      cases hsp : s.splitOnP p with
      | nil => rw [hsp] at ht; simp at ht
      | cons u us =>
        rw [hsp] at ht ih
        simp only [List.modifyHead_cons, List.mem_cons] at ht
        rcases ht with rfl | ht
        · rcases List.mem_cons.1 hx with rfl | hx
          · simpa using hc
          · exact ih u (List.mem_cons_self _ _) x hx
        · exact ih t (List.mem_cons_of_mem _ ht) x hx

theorem space_runs_mem (s t : CStr) (ht : t ∈ space_runs s) : t ≠ [] ∧ ' ' ∉ t := by
  simp only [space_runs, List.mem_filter, List.splitOn] at ht
  refine ⟨?_, ?_⟩
  · intro h; rw [h] at ht; simp at ht
  · intro h
    have := splitOnP_mem_not (fun x => x == ' ') s t ht.1 ' ' h
    simp at this

theorem tokenize_loop_length (fuel : Nat) :
    ∀ s : CStr, 2 * (tokenize_loop fuel s).length ≤ s.length + 1 := by
  induction fuel with
  | zero => intro s; simp [tokenize_loop]
  | succ fuel ih =>
    intro s
    have hfun : is_delim [' '] = fun c => c == ' ' := funext is_delim_space
    simp only [tokenize_loop, strtok, hfun]
    have hlen : (s.dropWhile (fun c => c == ' ')).length ≤ s.length :=
      (List.dropWhile_sublist _).length_le
    cases hd : s.dropWhile (fun c => c == ' ') with
    | nil => simp
    | cons c rest =>
      have hc : (c == ' ') = false := by
        have := List.head_dropWhile_not (fun x => x == ' ') s (by simp [hd])
        simpa [hd] using this
      rw [hd] at hlen
      simp only [List.length_cons, List.dropWhile_cons, List.takeWhile_cons, hc, Bool.not_false,
        if_true] at hlen ⊢
      have h2 := ih ((List.dropWhile (fun x => !(x == ' ')) rest).tail)
      have h3 : (List.dropWhile (fun x => !(x == ' ')) rest).length ≤ rest.length :=
        (List.dropWhile_sublist (fun x => !(x == ' '))).length_le
      cases hdw : List.dropWhile (fun x => !(x == ' ')) rest with
      | nil =>
        have : tokenize_loop fuel [] = [] := by
          cases fuel <;> simp [tokenize_loop, strtok]
        simp only [List.tail_nil, this, List.length_nil]
        omega
      | cons d r =>
        rw [hdw] at h2 h3
        simp only [List.tail_cons, List.length_cons] at h2 h3 ⊢
        omega

/-- A line of `n` characters has at most `(n + 1) / 2` tokens. -/
theorem tokenize_length_le (s : CStr) : (tokenize s).length ≤ (s.length + 1) / 2 := by
  have := tokenize_loop_length (s.length + 1) s
  unfold tokenize
  omega

/-- The lines `main` and `prompt` pass come from `char str[80]`: their tokens
and the terminator fit the 64 slots of `args`. -/
theorem tokenize_fits (s : CStr) (h : s.length < 80) : (tokenize s).length < ARGS_CAP := by
  have := tokenize_length_le s
  unfold ARGS_CAP
  omega

/-- C8 (amended): the tokenizer splits on the space character only. For every
line, the tokens are, in order, exactly the maximal runs of non-space
characters; no token is empty, no token contains a space; the empty line has
no token. -/
theorem tokenize_spec (str : CStr) :
    tokenize str = space_runs str ∧ (∀ t ∈ tokenize str, t ≠ [] ∧ ' ' ∉ t) ∧
      tokenize [] = [] := by
  refine ⟨tokenize_eq_space_runs str, ?_, by decide⟩
  intro t ht
  rw [tokenize_eq_space_runs] at ht
  exact space_runs_mem str t ht

/-- C8 (counterexample): a tab does not separate tokens; the line `a<TAB>b`
is a single token that contains the tab. -/
theorem tokenize_tab_inside :
    tokenize ['a', '\t', 'b'] = [['a', '\t', 'b']] ∧ '\t' ∈ ['a', '\t', 'b'] := by
  decide

/-! ## Built-ins and no-ops -/

theorem pipeline_loop_not_ret (fuel : Nat) :
    ∀ (args : Args) (t tpipe : Nat) (out : List Event) (code : Int) (st : Shell)
      (out' : List Event), pipeline_loop fuel args t tpipe out ≠ .ret code st out' := by
  induction fuel with
  | zero => intro args t tpipe out code st out'; simp [pipeline_loop]
  | succ fuel ih =>
    intro args t tpipe out code st out'
    rw [pipeline_loop]
    repeat' split
    all_goals first
      | exact ih _ _ _ _ _ _ _
      | simp

theorem open_dup_not_ret (w : World) (path : Option CStr) (flags : List OFlag) (target : Fd)
    (out : List Event) (code : Int) (st : Shell) (out' : List Event) :
    open_dup w path flags target out ≠ .error (.ret code st out') := by
  unfold open_dup
  split
  · split <;> simp
  · simp

theorem redirection_not_ret (w : World) (args : Args) (next : Int) (out : List Event)
    (code : Int) (st : Shell) (out' : List Event) :
    redirection w args next out ≠ .error (.ret code st out') := by
  unfold redirection
  have h := open_dup_not_ret w
  repeat' split
  all_goals
    intro hc
    first
      | (simp at hc; done)
      | (injection hc with hc; subst hc; rename_i heq; exact h _ _ _ _ _ _ _ heq)

theorem exec_branch_not_ret (w : World) (args : Args) (next : Int) (out : List Event)
    (code : Int) (st : Shell) (out' : List Event) :
    exec_branch w args next out ≠ .ret code st out' := by
  unfold exec_branch
  split
  · rename_i o heq
    intro hc; subst hc
    exact redirection_not_ret _ _ _ _ _ _ _ heq
  · exact pipeline_loop_not_ret _ _ _ _ _ _ _ _

theorem launch_ret_code (w : World) (st : Shell) (args : Args) (next : Int) (bg : Bool)
    (code : Int) (st' : Shell) (out' : List Event)
    (h : launch w st args next bg = .ret code st' out') : code = R_OKOK := by
  unfold launch at h
  simp only at h
  split at h
  · split at h <;> (injection h with h1 _ _; exact h1.symm)
  · exact absurd h (exec_branch_not_ret _ _ _ _ _ _ _)

theorem cd_builtin_ret_code (w : World) (st : Shell) (args : Args)
    (code : Int) (st' : Shell) (out' : List Event)
    (h : cd_builtin w st args = .ret code st' out') : code = R_OKOK ∨ code = R_ERROR := by
  unfold cd_builtin at h
  split at h
  · simp at h
  · injection h with h1 _ _
    rw [← h1]
    split <;> simp
  · injection h with h1 _ _
    exact Or.inl h1.symm

theorem handler_ret_exit (w : World) (st : Shell) (str : CStr) (st' : Shell) (out' : List Event)
    (h : handler w st str = .ret R_EXIT st' out') : str = "exit".toList := by
  unfold handler at h
  split at h
  · injection h with h1 _ _; exact absurd h1 (by decide)
  · split at h
    · assumption
    · split at h
      · injection h with h1 _ _; exact absurd h1 (by decide)
      · simp only at h
        split at h
        · simp at h
        · split at h
          · simp at h
          · simp at h
          · split at h
            · rcases cd_builtin_ret_code _ _ _ _ _ _ h with h1 | h1 <;>
                exact absurd h1 (by decide)
            · split at h
              · simp at h
              · simp at h
              · split at h <;> exact absurd (launch_ret_code _ _ _ _ _ _ _ _ h) (by decide)

/-- C1 (amended): for every line that is empty or whose first character is
`#` (or a newline), `handler` returns `R_OKOK`, makes no system call (no
process is spawned) and leaves `fg_pid`, `bg_count` and the last status as
they were. -/
theorem handler_noop (w : World) (st : Shell) (str : CStr)
    (h : str = [] ∨ str.head? = some '\n' ∨ str.head? = some '#') :
    handler w st str = .ret R_OKOK st [] := by
  unfold handler
  rw [if_pos]
  rcases h with h | h | h
  · subst h; simp
  · exact Or.inr (Or.inl h)
  · exact Or.inr (Or.inr h)

/-- C1 (witness): the comment line `# note`. -/
theorem handler_noop_witness :
    "# note".toList.head? = some '#' ∧
      handler (world 100 256) (init true) "# note".toList = .ret R_OKOK (init true) [] :=
  ⟨by decide,
    handler_noop (world 100 256) (init true) "# note".toList (Or.inr (Or.inr (by decide)))⟩

/-- C1 (counterexample): the line made of one tab, and the comment preceded by
a blank, are run as commands: a process is forked and waited for, and the last
status is overwritten (here from 0 to 256). -/
theorem handler_blank_lines_spawn :
    handler (world 100 256) (init true) ['\t'] =
        .ret R_OKOK { init true with status := 256 }
          [.fork 100, .setpgid 100 100, .set_fg_pid 100, .waitpid 100, .set_status 256,
           .set_fg_pid 0, .raise_sigchld] ∧
      handler (world 100 256) (init true) " #x".toList =
        .ret R_OKOK { init true with status := 256 }
          [.fork 100, .setpgid 100 100, .set_fg_pid 100, .waitpid 100, .set_status 256,
           .set_fg_pid 0, .raise_sigchld] := by
  decide

/-- C9 (amended): the built-ins are recognised on the whole line, before it is
tokenized. The line that is exactly `exit` returns `R_EXIT` with no system
call; the line that is exactly `status` runs the status built-in (one print,
no other system call, state unchanged); no other line returns `R_EXIT`. -/
theorem handler_builtins (w : World) (st : Shell) :
    handler w st "exit".toList = .ret R_EXIT st [] ∧
      handler w st "status".toList =
        .ret R_OKOK st [Event.print (printf_d (WEXITSTATUS st.status))] ∧
      ∀ (str : CStr) (st' : Shell) (out : List Event),
        handler w st str = .ret R_EXIT st' out → str = "exit".toList := by
  refine ⟨?_, ?_, fun str st' out h => handler_ret_exit w st str st' out h⟩
  · unfold handler; rw [if_neg (by decide), if_pos rfl]
  · unfold handler; rw [if_neg (by decide), if_neg (by decide), if_pos rfl]

/-- C9 (counterexample): with a blank before or after the word, the single
token `exit` is not the built-in: the line is run as an external command
(fork, wait) and `handler` returns `R_OKOK`. -/
theorem handler_exit_with_blank :
    tokenize " exit".toList = ["exit".toList] ∧
      handler (world 100 0) (init true) " exit".toList =
        .ret R_OKOK (init true)
          [.fork 100, .setpgid 100 100, .set_fg_pid 100, .waitpid 100, .set_status 0,
           .set_fg_pid 0, .raise_sigchld] ∧
      tokenize "exit ".toList = ["exit".toList] ∧
      handler (world 100 0) (init true) "exit ".toList =
        .ret R_OKOK (init true)
          [.fork 100, .setpgid 100 100, .set_fg_pid 100, .waitpid 100, .set_status 0,
           .set_fg_pid 0, .raise_sigchld] := by
  decide

/-! ## Reaching fork -/

theorem slot_nat (args : Args) (n : Nat) :
    slot args (n : Int) =
      match args[n]? with
      | some p => .ok p
      | none => .error (.out_of_bounds n) := by
  unfold slot
  rw [if_neg (by omega), Int.toNat_ofNat]

theorem getElem?_tokens (pre : List CStr) (rest : Args) :
    (pre.map some ++ rest)[pre.length]? = rest[0]? := by
  rw [List.getElem?_append_right (by simp)]
  simp

theorem slot_tokens_last (front : List CStr) (last : CStr) (rest : Args) :
    slot ((front ++ [last]).map some ++ rest) (((front ++ [last]).length : Nat) - 1 : Int) =
      .ok (some last) := by
  have h1 : (((front ++ [last]).length : Nat) - 1 : Int) = (front.length : Nat) := by
    simp
  rw [h1, slot_nat]
  have := getElem?_tokens front (some last :: rest)
  simp only [List.map_append, List.map_cons, List.map_nil, List.append_assoc,
    List.singleton_append] at this ⊢
  rw [this]
  simp

theorem set_tokens_last (front : List CStr) (last : CStr) (rest : Args) :
    ((front ++ [last]).map some ++ rest).set
        ((((front ++ [last]).length : Nat) - 1 : Int)).toNat none =
      front.map some ++ none :: rest := by
  have h1 : (((front ++ [last]).length : Nat) - 1 : Int) = (front.length : Nat) := by
    simp
  rw [h1]
  simp [List.set_append]

/-- How `handler` reaches `fork` on a line that is neither a no-op nor a
built-in: the trailing `&`, when there is one, is replaced by `NULL` and `next`
moves back by one. -/
theorem handler_external (w : World) (st : Shell) (str : CStr) (front : List CStr) (last : CStr)
    (h0 : ¬ (str.head? = none ∨ str.head? = some '\n' ∨ str.head? = some '#'))
    (h1 : str ≠ "exit".toList) (h2 : str ≠ "status".toList)
    (ht : tokenize str = front ++ [last]) (hcap : (front ++ [last]).length < ARGS_CAP)
    (hcd : (front ++ [last]).head? ≠ some "cd".toList) :
    handler w st str =
      if last = "&".toList then launch w st (front.map some ++ [none, none]) front.length true
      else launch w st ((front ++ [last]).map some ++ [none]) (front.length + 1) false := by
  unfold handler
  rw [if_neg h0, if_neg h1, if_neg h2]
  simp only [ht]
  rw [if_neg (Nat.not_le.2 hcap)]
  have hs0 : slot ((front ++ [last]).map some ++ [none]) 0 =
      .ok ((front ++ [last]).head?) := by
    unfold slot
    cases front <;> simp
  rw [hs0]
  cases hh : (front ++ [last]).head? with
  | none => cases front <;> simp at hh
  | some a0 =>
    rw [hh] at hcd
    have hne : a0 ≠ "cd".toList := fun h => hcd (by rw [h])
    simp only [if_neg hne]
    rw [slot_tokens_last, set_tokens_last]
    simp

/-! ## Job tracker -/

theorem size_dec_pos (c : Nat) (h0 : 0 < c) (h : c < SIZE_MOD) : size_dec c = c - 1 := by
  unfold size_dec SIZE_MOD at *
  omega

theorem to_int_toNat_le (n : Nat) : (to_int n).toNat ≤ n := by
  unfold to_int
  split <;> omega

theorem to_int_small (n : Nat) (h : n < 2 ^ 31) : (to_int n).toNat = n := by
  unfold to_int
  split <;> omega

/-- The events of `i` attempts numbered from `k`. -/
theorem bg_wait_loop_spec (w : World) :
    ∀ (i k : Nat) (st : Shell) (out : List Event), i ≤ st.bg_count → st.bg_count < SIZE_MOD →
      (bg_wait_loop w i k st out).2 =
          out ++ (List.range i).map (fun j => Event.waitpid_nohang (w.reap (k + j))) ∧
        (bg_wait_loop w i k st out).1.bg_count +
            ((List.range i).map (fun j => Event.waitpid_nohang (w.reap (k + j)))).count
              (Event.waitpid_nohang true) = st.bg_count ∧
        (bg_wait_loop w i k st out).1 =
          { st with bg_count := (bg_wait_loop w i k st out).1.bg_count } := by
  intro i
  induction i with
  | zero => intro k st out _ _; simp [bg_wait_loop]
  | succ i ih =>
    intro k st out hi hc
    rw [bg_wait_loop]
    have hshift : (List.range (i + 1)).map (fun j => Event.waitpid_nohang (w.reap (k + j))) =
        Event.waitpid_nohang (w.reap k) ::
          (List.range i).map (fun j => Event.waitpid_nohang (w.reap (k + 1 + j))) := by
      rw [List.range_succ_eq_map]
      simp [Function.comp_def, Nat.add_assoc, Nat.add_comm 1]
    rw [hshift]
    cases hr : w.reap k with
    | false =>
      obtain ⟨e1, e2, e3⟩ := ih (k + 1) st (out ++ [Event.waitpid_nohang false]) (by omega) hc
      simp only [Bool.false_eq_true, if_false]
      refine ⟨by rw [e1]; simp, ?_, e3⟩
      rw [List.count_cons_of_ne (by simp)]
      exact e2
    | true =>
      have hdec := size_dec_pos st.bg_count (by omega) hc
      simp only [if_true, hdec]
      obtain ⟨e1, e2, e3⟩ := ih (k + 1) { st with bg_count := st.bg_count - 1 }
        (out ++ [Event.waitpid_nohang true]) (by simp only; omega) (by simp only; omega)
      simp only at e2
      refine ⟨by rw [e1]; simp, ?_, ?_⟩
      · rw [List.count_cons_self]
        omega
      · rw [e3]

theorem bg_wait_busy (w : World) (st : Shell) (h : st.fg_pid ≠ 0) : bg_wait w st = (st, []) := by
  unfold bg_wait
  rw [if_neg h]

theorem bg_wait_idle (w : World) (st : Shell) (h : st.fg_pid = 0) (hc : st.bg_count < SIZE_MOD) :
    (bg_wait w st).2 =
        (List.range (to_int st.bg_count).toNat).map (fun k => Event.waitpid_nohang (w.reap k)) ∧
      (bg_wait w st).1.bg_count + (bg_wait w st).2.count (Event.waitpid_nohang true) =
        st.bg_count ∧
      (bg_wait w st).1 = { st with bg_count := (bg_wait w st).1.bg_count } := by
  unfold bg_wait
  rw [if_pos h]
  obtain ⟨e1, e2, e3⟩ := bg_wait_loop_spec w (to_int st.bg_count).toNat 0 st []
    (to_int_toNat_le _) hc
  simp only [Nat.zero_add, List.nil_append] at e1 e2
  refine ⟨e1, ?_, e3⟩
  rw [e1]
  exact e2

/-- C4 (amended): one run of `bg_wait` from a state with `bg_count = n`, a
`size_t`.
With `fg_pid` nonzero it makes no wait attempt and changes nothing. With
`fg_pid` zero it makes as many attempts as the `int` loop counter initialised
from `n` says, which is exactly `n` whenever `n` is at most `2 ^ 31 - 1` and
never more than `n`; `bg_count` ends at `n` minus the number of attempts that
reaped a child, so it never wraps below zero and never increases, and no
other global changes. -/
theorem bg_wait_spec (w : World) (st : Shell) (hc : st.bg_count < SIZE_MOD) :
    (st.fg_pid ≠ 0 → bg_wait w st = (st, [])) ∧
      (st.fg_pid = 0 →
        (bg_wait w st).2 =
            (List.range (to_int st.bg_count).toNat).map
              (fun k => Event.waitpid_nohang (w.reap k)) ∧
          (bg_wait w st).2.length ≤ st.bg_count ∧
          (st.bg_count < 2 ^ 31 → (bg_wait w st).2.length = st.bg_count)) ∧
      (bg_wait w st).1.bg_count + (bg_wait w st).2.count (Event.waitpid_nohang true) =
        st.bg_count ∧
      (bg_wait w st).1.bg_count ≤ st.bg_count ∧
      (bg_wait w st).1 = { st with bg_count := (bg_wait w st).1.bg_count } := by
  by_cases h : st.fg_pid = 0
  · obtain ⟨e1, e2, e3⟩ := bg_wait_idle w st h hc
    refine ⟨fun hne => absurd h hne, fun _ => ⟨e1, ?_, ?_⟩, e2, by omega, e3⟩
    · rw [e1]; simpa using to_int_toNat_le st.bg_count
    · intro hs; rw [e1]; simpa using to_int_small st.bg_count hs
  · have hb := bg_wait_busy w st h
    refine ⟨fun _ => hb, fun h0 => absurd h0 h, ?_, ?_, ?_⟩ <;> simp [hb]

/-- C4 (witness): three outstanding background children, the second wait
finds nothing to reap: three attempts, `bg_count` ends at 1. -/
theorem bg_wait_spec_witness :
    (sample_state 3).bg_count < SIZE_MOD ∧
      (bg_wait sample_world (sample_state 3)).2 =
        [.waitpid_nohang true, .waitpid_nohang false, .waitpid_nohang true] ∧
      (bg_wait sample_world (sample_state 3)).1.bg_count = 1 ∧
      (bg_wait sample_world (sample_state 3)).1.bg_count +
          (bg_wait sample_world (sample_state 3)).2.count (Event.waitpid_nohang true) =
        (sample_state 3).bg_count :=
  ⟨by decide, by decide, by decide,
    (bg_wait_spec sample_world (sample_state 3) (by decide)).2.2.1⟩

/-- C4 (counterexample): with no foreground process and `bg_count = 2 ^ 31`
the loop counter `int i = bg_count` is negative: no wait attempt is made,
although `n` attempts are claimed. -/
theorem bg_wait_int_counter :
    (init true).fg_pid = 0 ∧
      bg_wait (world 7 0) { init true with bg_count := 2 ^ 31 } =
        ({ init true with bg_count := 2 ^ 31 }, []) ∧
      (2 : Nat) ^ 31 < SIZE_MOD := by
  decide

/-! ## Foreground, background and status -/

theorem argv_tokens (pre : List CStr) (rest : Args) :
    argv (pre.map some ++ none :: rest) 0 = pre := by
  unfold argv
  induction pre with
  | nil => simp
  | cons a pre ih =>
    simp only [List.drop_zero] at ih
    simp [List.takeWhile_cons, ih]

theorem raise_sigchld_idle (w : World) (st : Shell) (h : st.fg_pid = 0)
    (hc : st.bg_count < SIZE_MOD) :
    (raise_sigchld w st).1.bg_count + (raise_sigchld w st).2.count (Event.waitpid_nohang true) =
        st.bg_count ∧
      (raise_sigchld w st).1 = { st with bg_count := (raise_sigchld w st).1.bg_count } := by
  unfold raise_sigchld
  split
  · obtain ⟨_, e2, e3⟩ := bg_wait_idle w st h hc
    exact ⟨e2, e3⟩
  · simp

theorem and_shiftRight (a b : Nat) : ∀ k : Nat, (a &&& b) >>> k = (a >>> k) &&& (b >>> k) := by
  intro k
  induction k with
  | zero => rfl
  | succ k ih => rw [Nat.shiftRight_succ, Nat.shiftRight_succ, Nat.shiftRight_succ, ih,
      Nat.and_div_two]

theorem bg_wait_status (w : World) (st : Shell) : (bg_wait w st).1.status = st.status := by
  unfold bg_wait
  split
  · suffices h : ∀ (i k : Nat) (s : Shell) (out : List Event),
        (bg_wait_loop w i k s out).1.status = s.status from h _ _ _ _
    intro i
    induction i with
    | zero => intro k s out; rfl
    | succ i ih =>
      intro k s out
      rw [bg_wait_loop, ih]
      split <;> rfl
  · rfl

theorem WEXITSTATUS_eq (s : Int) : WEXITSTATUS s = (s / 256) % 256 := by
  unfold WEXITSTATUS
  have h1 : ((s % 2 ^ 32).toNat &&& 0xff00) >>> 8 = ((s % 2 ^ 32).toNat / 256) % 256 := by
    rw [and_shiftRight]
    have : (0xff00 : Nat) >>> 8 = 2 ^ 8 - 1 := by decide
    rw [this, Nat.and_pow_two_sub_one_eq_mod, Nat.shiftRight_eq_div_pow]
  rw [h1]
  omega

/-- C5 (amended): an external command line without trailing `&` (tokens
`front ++ [last]`, fitting the argument array), `fork` returning `p > 0`, the
count a `size_t`. In program order the handler records `fg_pid = p`, blocks in
`waitpid(p, &status, 0)`, stores the raw status delivered, resets `fg_pid` to 0
and only then raises `SIGCHLD`. When `main` has installed `bg_wait` for that
signal (interactive terminal) the reap pass runs from `fg_pid = 0`: it is the
loop of `bg_wait`, not its deferred branch. When it has not, the signal is
ignored and nothing is reaped. On return the code is `R_OKOK`, `fg_pid` is 0,
the last status is the one delivered, and `bg_count` is the old value minus
the reaps of that pass. -/
theorem handler_foreground (w : World) (st : Shell) (str : CStr) (front : List CStr) (last : CStr)
    (h0 : ¬ (str.head? = none ∨ str.head? = some '\n' ∨ str.head? = some '#'))
    (h1 : str ≠ "exit".toList) (h2 : str ≠ "status".toList)
    (ht : tokenize str = front ++ [last]) (hcap : (front ++ [last]).length < ARGS_CAP)
    (hcd : (front ++ [last]).head? ≠ some "cd".toList)
    (hbg : last ≠ "&".toList) (hp : 0 < w.fork_result) (hc : st.bg_count < SIZE_MOD) :
    handler w st str =
        .ret R_OKOK (raise_sigchld w { st with status := w.wait_status, fg_pid := 0 }).1
          ([.fork w.fork_result, .setpgid w.fork_result w.fork_result,
            .set_fg_pid w.fork_result, .waitpid w.fork_result, .set_status w.wait_status,
            .set_fg_pid 0, .raise_sigchld] ++
            (raise_sigchld w { st with status := w.wait_status, fg_pid := 0 }).2) ∧
      raise_sigchld w { st with status := w.wait_status, fg_pid := 0 } =
        (if st.sigchld then
          bg_wait_loop w (to_int st.bg_count).toNat 0
            { st with status := w.wait_status, fg_pid := 0 } []
         else ({ st with status := w.wait_status, fg_pid := 0 }, [])) ∧
      (raise_sigchld w { st with status := w.wait_status, fg_pid := 0 }).1 =
        { st with status := w.wait_status, fg_pid := 0,
                  bg_count := (raise_sigchld w
                    { st with status := w.wait_status, fg_pid := 0 }).1.bg_count } ∧
      (raise_sigchld w { st with status := w.wait_status, fg_pid := 0 }).1.bg_count +
          (raise_sigchld w { st with status := w.wait_status, fg_pid := 0 }).2.count
            (Event.waitpid_nohang true) = st.bg_count := by
  obtain ⟨e2, e3⟩ := raise_sigchld_idle w { st with status := w.wait_status, fg_pid := 0 } rfl hc
  refine ⟨?_, ?_, e3, e2⟩
  · rw [handler_external w st str front last h0 h1 h2 ht hcap hcd, if_neg hbg]
    unfold launch
    simp only [gt_iff_lt, hp, if_true, Bool.false_eq_true, if_false]
    simp
  · unfold raise_sigchld bg_wait
    simp

/-- C5 (witness): `ls -l` with two background children outstanding. -/
theorem handler_foreground_witness :
    handler sample_world (sample_state 2) "ls -l".toList =
      .ret R_OKOK { sample_state 1 with status := 0 }
        [.fork 7, .setpgid 7 7, .set_fg_pid 7, .waitpid 7, .set_status 0, .set_fg_pid 0,
         .raise_sigchld, .waitpid_nohang true, .waitpid_nohang false] := by
  have h := (handler_foreground sample_world (sample_state 2) "ls -l".toList ["ls".toList]
    "-l".toList (by decide) (by decide) (by decide) (by decide) (by decide) (by decide)
    (by decide) (by decide) (by decide)).1
  rw [h]
  decide

/-- C5 (counterexample): a script (no `SIGCHLD` handler installed), two
background children counted, every non-blocking wait ready to reap. After the
foreground `ls -l` the raised signal is ignored: no wait attempt is made and
`bg_count` stays at 2, whereas a run of `bg_wait` from the same globals makes
two attempts and reaps twice. -/
theorem handler_foreground_script :
    handler (world 7 0) { init false with bg_count := 2 } "ls -l".toList =
        .ret R_OKOK { init false with bg_count := 2 }
          [.fork 7, .setpgid 7 7, .set_fg_pid 7, .waitpid 7, .set_status 0, .set_fg_pid 0,
           .raise_sigchld] ∧
      bg_wait (world 7 0) { init false with bg_count := 2 } =
        ({ init false with bg_count := 0 }, [.waitpid_nohang true, .waitpid_nohang true]) := by
  decide

/-- C6: an external command line whose last token is `&` (tokens
`front ++ [&]`, fitting the argument array), `fork` returning `p > 0`, the
count below the largest `size_t`. In the interpreter no wait is made, `p` is
printed in decimal with a newline, `bg_count` increases by exactly one, the
code is `R_OKOK`, `fg_pid` and the last status are unchanged, and a `status`
built-in run next prints the exit code of the status that was stored before.
The `&` has been replaced by `NULL` before the `fork`: the process in which
`fork` returned 0 goes into the redirection and pipeline code with the vector
`front` and `next` at its end. -/
theorem handler_background (w : World) (st : Shell) (str : CStr) (front : List CStr)
    (h0 : ¬ (str.head? = none ∨ str.head? = some '\n' ∨ str.head? = some '#'))
    (h1 : str ≠ "exit".toList) (h2 : str ≠ "status".toList)
    (ht : tokenize str = front ++ ["&".toList])
    (hcap : (front ++ ["&".toList]).length < ARGS_CAP)
    (hcd : (front ++ ["&".toList]).head? ≠ some "cd".toList)
    (hp : 0 < w.fork_result) (hc : st.bg_count + 1 < SIZE_MOD) :
    handler w st str =
        .ret R_OKOK { st with bg_count := st.bg_count + 1 }
          [.fork w.fork_result, .setpgid w.fork_result w.fork_result,
           .print (toString w.fork_result ++ "\n")] ∧
      handler { w with fork_result := 0 } st str =
        exec_branch { w with fork_result := 0 } (front.map some ++ [none, none]) front.length
          [.fork 0, .setpgid 0 0] ∧
      argv (front.map some ++ [none, none]) 0 = front ∧
      handler w { st with bg_count := st.bg_count + 1 } "status".toList =
        .ret R_OKOK { st with bg_count := st.bg_count + 1 }
          [.print (toString ((st.status / 256) % 256) ++ "\n")] := by
  have hinc : size_inc st.bg_count = st.bg_count + 1 := by
    unfold size_inc
    exact Nat.mod_eq_of_lt hc
  refine ⟨?_, ?_, argv_tokens front [none], ?_⟩
  · rw [handler_external w st str front "&".toList h0 h1 h2 ht hcap hcd, if_pos rfl]
    unfold launch
    simp only [gt_iff_lt, hp, if_true, hinc]
    simp [printf_d]
  · rw [handler_external { w with fork_result := 0 } st str front "&".toList h0 h1 h2 ht hcap
      hcd, if_pos rfl]
    unfold launch
    simp
  · unfold handler
    rw [if_neg (by decide), if_neg (by decide), if_pos rfl, WEXITSTATUS_eq]
    rfl

/-- C6 (witness): `sleep 5 &` after a foreground command that exited with
code 3. The interpreter prints the child id and counts one more background
process; the child executes `sleep 5`, without the `&`. -/
theorem handler_background_witness :
    handler (world 100 0) { init true with status := 768 } "sleep 5 &".toList =
        .ret R_OKOK { init true with status := 768, bg_count := 1 }
          [.fork 100, .setpgid 100 100, .print "100\n"] ∧
      handler (world 0 0) { init true with status := 768 } "sleep 5 &".toList =
        .exec [.fork 0, .setpgid 0 0, .execvp ["sleep".toList, "5".toList]] ∧
      handler (world 100 0) { init true with status := 768, bg_count := 1 } "status".toList =
        .ret R_OKOK { init true with status := 768, bg_count := 1 } [.print "3\n"] := by
  have h := handler_background (world 100 0) { init true with status := 768 }
    "sleep 5 &".toList ["sleep".toList, "5".toList]
    (by decide) (by decide) (by decide) (by decide) (by decide) (by decide) (by decide)
    (by decide)
  refine ⟨?_, ?_, ?_⟩
  · rw [h.1]; decide
  · have h2 := h.2.1
    change handler (world 0 0) _ _ = _ at h2
    rw [h2]; decide
  · have h4 := h.2.2.2
    change handler (world 100 0) { init true with status := 768, bg_count := 1 } _ = _ at h4
    rw [h4]; decide

/-- C7: the `status` built-in prints the exit-code field of the stored raw
status, `(s / 256) mod 256`, in decimal with a newline, returns `R_OKOK`,
makes no other system call and changes no global; for `s = 256 * c` with `c`
in `0..255` it prints `c`. Neither a run of `bg_wait` nor a background launch
writes the stored status. -/
theorem status_builtin (w : World) (st : Shell) :
    handler w st "status".toList =
        .ret R_OKOK st [.print (toString ((st.status / 256) % 256) ++ "\n")] ∧
      (∀ c : Fin 256, handler w { st with status := 256 * (c.val : Int) } "status".toList =
        .ret R_OKOK { st with status := 256 * (c.val : Int) }
          [.print (toString (c.val : Int) ++ "\n")]) ∧
      (∀ w' : World, (bg_wait w' st).1.status = st.status) ∧
      (∀ (w' : World) (p : Nat) (args : Args) (next : Int),
        launch { w' with fork_result := (p : Int) + 1 } st args next true =
          .ret R_OKOK { st with bg_count := size_inc st.bg_count }
            [.fork ((p : Int) + 1), .setpgid ((p : Int) + 1) ((p : Int) + 1),
             .print (toString ((p : Int) + 1) ++ "\n")]) := by
  have hs : ∀ st' : Shell, handler w st' "status".toList =
      .ret R_OKOK st' [.print (toString ((st'.status / 256) % 256) ++ "\n")] := by
    intro st'
    unfold handler
    rw [if_neg (by decide), if_neg (by decide), if_pos rfl, WEXITSTATUS_eq]
    rfl
  refine ⟨hs st, ?_, ?_, ?_⟩
  · intro c
    rw [hs]
    have : (256 * (c.val : Int)) / 256 % 256 = (c.val : Int) := by
      have := c.isLt
      omega
    simp only [this]
  · intro w'
    exact bg_wait_status w' st
  · intro w' p args next
    unfold launch
    have hp : (0 : Int) < (p : Int) + 1 := by omega
    simp only [gt_iff_lt, hp, if_true]
    simp [printf_d]

/-! ## Redirection -/

theorem slot_operator (pre : List CStr) (op path : CStr) (rest : Args) :
    slot ((pre ++ [op, path]).map some ++ none :: rest)
        ((((pre ++ [op, path]).length : Nat) : Int) - 2) = .ok (some op) := by
  have h1 : ((((pre ++ [op, path]).length : Nat) : Int) - 2) = (pre.length : Nat) := by
    simp
  rw [h1, slot_nat]
  have := getElem?_tokens pre (some op :: some path :: none :: rest)
  simp only [List.map_append, List.map_cons, List.map_nil, List.append_assoc,
    List.cons_append, List.nil_append] at this ⊢
  rw [this]
  simp

theorem slot_path (pre : List CStr) (op path : CStr) (rest : Args) :
    slot ((pre ++ [op, path]).map some ++ none :: rest)
        ((((pre ++ [op, path]).length : Nat) : Int) - 1) = .ok (some path) := by
  have h1 : ((((pre ++ [op, path]).length : Nat) : Int) - 1) = ((pre ++ [op]).length : Nat) := by
    simp only [List.length_append, List.length_cons, List.length_nil]
    push_cast
    omega
  rw [h1, slot_nat]
  have := getElem?_tokens (pre ++ [op]) (some path :: none :: rest)
  simp only [List.map_append, List.map_cons, List.map_nil, List.append_assoc,
    List.cons_append, List.nil_append] at this ⊢
  rw [this]
  simp

theorem set_operator (pre : List CStr) (op path : CStr) (rest : Args) :
    ((pre ++ [op, path]).map some ++ none :: rest).set
        ((((pre ++ [op, path]).length : Nat) : Int) - 2).toNat none =
      pre.map some ++ none :: some path :: none :: rest := by
  have h1 : ((((pre ++ [op, path]).length : Nat) : Int) - 2) = (pre.length : Nat) := by
    simp
  rw [h1]
  simp [List.set_append]

theorem redirection_eq (w : World) (pre : List CStr) (op path : CStr) (rest : Args)
    (out : List Event) :
    redirection w ((pre ++ [op, path]).map some ++ none :: rest)
        ((pre ++ [op, path]).length : Nat) out =
      match RedirKind.of_token op with
      | some k =>
        if w.open_ok path then
          .ok (pre.map some ++ none :: some path :: none :: rest,
            out ++ [Event.open_file (some path) k.flags, Event.dup2_file k.target,
                    Event.close_file])
        else .error (.exit 1 (out ++ [Event.open_file (some path) k.flags, Event.eprint_error]))
      | none => .ok ((pre ++ [op, path]).map some ++ none :: rest, out) := by
  unfold redirection
  rw [slot_operator, slot_path, set_operator]
  unfold RedirKind.of_token open_dup
  have e1 : ¬ (">".toList = "<".toList) := by decide
  have e2 : ¬ (">>".toList = "<".toList) := by decide
  have e3 : ¬ (">>".toList = ">".toList) := by decide
  cases hok : w.open_ok path <;> by_cases h1 : op = "<".toList <;>
    by_cases h2 : op = ">".toList <;> by_cases h3 : op = ">>".toList <;>
    simp_all [RedirKind.flags, RedirKind.target]

/-- C2: an argument vector of at least two tokens, `pre ++ [op, path]`, with
`next` at its end. If `op` is `<`, `>` or `>>`, exactly one `open` is made, of
`path`, read-only for `<`, create and truncate for `>`, create and append for
`>>`; when it succeeds the descriptor is duplicated onto standard input for
`<` and standard output otherwise, and the vector the pipeline loop goes on
with is `pre`; when it fails the process reports and exits with 1. If `op`
is none of the three, nothing is opened and the vector is unchanged, whatever
`pre` contains. -/
theorem redirection_spec (w : World) (pre : List CStr) (op path : CStr) (rest : Args)
    (out : List Event) :
    redirection w ((pre ++ [op, path]).map some ++ none :: rest)
        ((pre ++ [op, path]).length : Nat) out =
      (match RedirKind.of_token op with
      | some k =>
        if w.open_ok path then
          .ok (pre.map some ++ none :: some path :: none :: rest,
            out ++ [Event.open_file (some path) k.flags, Event.dup2_file k.target,
                    Event.close_file])
        else .error (.exit 1 (out ++ [Event.open_file (some path) k.flags, Event.eprint_error]))
      | none => .ok ((pre ++ [op, path]).map some ++ none :: rest, out)) ∧
    exec_branch w ((pre ++ [op, path]).map some ++ none :: rest)
        ((pre ++ [op, path]).length : Nat) out =
      (match RedirKind.of_token op with
      | some k =>
        if w.open_ok path then
          pipeline (pre.map some ++ none :: some path :: none :: rest)
            (out ++ [Event.open_file (some path) k.flags, Event.dup2_file k.target,
                     Event.close_file])
        else .exit 1 (out ++ [Event.open_file (some path) k.flags, Event.eprint_error])
      | none => pipeline ((pre ++ [op, path]).map some ++ none :: rest) out) ∧
    argv (pre.map some ++ none :: some path :: none :: rest) 0 = pre ∧
    argv ((pre ++ [op, path]).map some ++ none :: rest) 0 = pre ++ [op, path] := by
  refine ⟨redirection_eq w pre op path rest out, ?_, argv_tokens _ _, argv_tokens _ _⟩
  unfold exec_branch
  rw [redirection_eq]
  cases RedirKind.of_token op with
  | none => rfl
  | some k =>
    cases hok : w.open_ok path <;> simp [hok]

/-! ## Pipeline -/

/-- C10 (failing inputs): in the process where `fork` returned 0, the
redirection test reads `*(next - 2)`. With the single token `ls`, and with
`ls &` once the `&` is stripped, that is `args[-1]`; with `&` alone it is
`args[-2]`: all before the start of the array. -/
theorem redirection_reads_before_args :
    handler (world 0 0) (init true) "ls".toList =
        .fault (.out_of_bounds (-1)) [.fork 0, .setpgid 0 0] ∧
      handler (world 0 0) (init true) "ls &".toList =
        .fault (.out_of_bounds (-1)) [.fork 0, .setpgid 0 0] ∧
      handler (world 0 0) (init true) "&".toList =
        .fault (.out_of_bounds (-2)) [.fork 0, .setpgid 0 0] := by
  decide

end MyShell
